import Mathlib

/-!
# VRF key and proof module (`coins/oracle/vrf/proof/key_v2.go`)

A shallow embedding of `key_v2.go`.  Go's `*big.Int` is `Int`, a `kyber.Scalar` is the
value of its backing integer, a `kyber.Point` is an element of an additive commutative
group `P` (the curve group, written additively as in the source's comments), `[]byte` is
`List Byte`.  A Go result `(T, error)` whose value is the zero value `T{}` whenever the
error is non-nil is an `Except VRFError T`.

The functions of `key_v2.go` are translated line by line.  What they call from packages
that are not among the sources (`secp256k1`, `utils`, `proof.go`) is either a field of
`Suite`/`Env` (so every theorem holds for all implementations of it) or a definition
marked `Modelled from the spec:`.
-/

namespace VRF

/-- One byte of a Go `[]byte`. -/
abbrev Byte := Fin 256

/-- Go's `string`. -/
abbrev GoStr := String

/-- Equality of two results is decidable when it is on errors and on values. -/
instance decEqExcept {ε α : Type} [DecidableEq ε] [DecidableEq α] :
    DecidableEq (Except ε α)
  | .ok a, .ok b =>
    if h : a = b then isTrue (by rw [h]) else isFalse (fun h' => h (Except.ok.inj h'))
  | .error a, .error b =>
    if h : a = b then isTrue (by rw [h]) else isFalse (fun h' => h (Except.error.inj h'))
  | .ok _, .error _ => isFalse (fun h => Except.noConfusion h)
  | .error _, .ok _ => isFalse (fun h => Except.noConfusion h)

/-- The Go `error` values that `key_v2.go` creates or passes on.  `fmt.Errorf` with `%v`
builds a fresh error around the message of its cause, so the cause is kept as text. -/
inductive VRFError where
  /-- the sentinel `ErrCGammaEqualsSHash` that `GenerateProof` tests with `errors.Is` -/
  | ErrCGammaEqualsSHash
  /-- `fmt.Errorf("badly-formatted key or seed")` -/
  | badlyFormattedKeyOrSeed
  /-- `fmt.Errorf("vrf.makeProof#HashToCurve, %v", err)` -/
  | hashToCurve (cause : String)
  /-- `fmt.Errorf("vrf.makeProof#ScalarFromCurvePoints, %v", err)` -/
  | scalarFromCurvePoints (cause : String)
  /-- `errors.New("constructed invalid proof")` -/
  | constructedInvalidProof
  /-- `fmt.Errorf("could not marshal public key,%v", err)` -/
  | couldNotMarshal (cause : String)
  /-- `fmt.Errorf("public key %x has wrong length", rawPublicKey)` -/
  | wrongLength (rawPublicKey : List Byte)
  /-- `fmt.Errorf("failed to copy correct length in serialized public key")` -/
  | failedToCopy
  /-- any other error value of a collaborator (`rand.Reader`, the verifier, ...) -/
  | other (msg : String)
  deriving DecidableEq

/-- The `Proof` record assembled at `key_v2.go:95-102`. -/
structure Proof (P : Type) where
  PublicKey : P
  Gamma : P
  C : Int
  S : Int
  Seed : Int
  Output : Int
  deriving DecidableEq

/-- `KeyV2`: the secret scalar `k` and the `secp256k1.PublicKey` byte array. -/
structure KeyV2 where
  k : Int
  PublicKey : List Byte
  deriving DecidableEq

/-- `type Raw []byte`. -/
abbrev Raw := List Byte

/-- The constants and functions of the `secp256k1` and `utils` packages and of the hash
providers that `key_v2.go` uses; they are parameters of the embedding. -/
structure Suite (P A : Type) where
  /-- `secp256k1.GroupOrder` -/
  GroupOrder : Int
  /-- `Generator`, the base point (`Mul(s, nil)` multiplies it) -/
  Generator : P
  /-- `secp256k1.CompressedPublicKeyLength` -/
  CompressedPublicKeyLength : Nat
  /-- `kyber.Point.MarshalBinary`, the compressed encoding of a point -/
  MarshalBinary : P → Except String (List Byte)
  /-- `secp256k1.PublicKey.String`, what `%s` prints for the public key -/
  PublicKeyString : List Byte → GoStr
  /-- `secp256k1.ScalarToHash(s).Big()` -/
  ScalarToHashBig : Int → Int
  /-- `secp256k1.RepresentsScalar` -/
  RepresentsScalar : Int → Bool
  /-- `HashToCurve(p, seed, func(*big.Int) {})` -/
  HashToCurve : P → Int → Except String P
  /-- `secp256k1.EthereumAddress` -/
  EthereumAddress : P → A
  /-- `ScalarFromCurvePoints(h, publicKey, gamma, uWitness, v)` -/
  ScalarFromCurvePoints : P → P → P → A → P → Except String Int
  /-- `utils.MustHash(string(b)).Big()` -/
  MustHashBig : List Byte → Int
  /-- `RandomOutputHashPrefix` -/
  RandomOutputHashPrefix : List Byte
  /-- `secp256k1.LongMarshal` -/
  LongMarshal : P → List Byte

/-- A `Suite` together with the two functions of the package's other file (`proof.go`)
that `GenerateProofWithNonce` calls. -/
structure Env (P A : Type) extends Suite P A where
  /-- `checkCGammaNotEqualToSHash(c, gamma, s, h)`; `none` is Go's `nil` error -/
  checkCGammaNotEqualToSHash : Int → P → Int → P → Option VRFError
  /-- `(*Proof).VerifyVRFProof`, result `(valid, err)` -/
  VerifyVRFProof : Proof P → Bool × Option VRFError

section bigInt

/-- Loop of `BitLen`: halve until zero, at most `fuel` times. -/
def bitLenAux : Nat → Nat → Nat
  | 0, _ => 0
  | fuel + 1, n => if n = 0 then 0 else bitLenAux fuel (n / 2) + 1

/-- Go's `(*big.Int).BitLen`: the length of the absolute value in bits, `0` for `0`. -/
def BitLen (x : Int) : Nat := bitLenAux x.natAbs x.natAbs

/-- Loop of `Bytes`: peel base-256 digits off the low end, most significant first in
the result. -/
def bytesAux : Nat → Nat → List Byte → List Byte
  | 0, _, acc => acc
  | fuel + 1, n, acc =>
    if n = 0 then acc else bytesAux fuel (n / 256) (Fin.ofNat (n % 256) :: acc)

/-- Go's `(*big.Int).Bytes`: the absolute value as a big-endian byte slice without
leading zero bytes (empty for `0`). -/
def Bytes (x : Int) : List Byte := bytesAux x.natAbs x.natAbs []

/-- Go's `new(big.Int).SetBytes(buf)`: `buf` read as a big-endian unsigned integer. -/
def SetBytes (buf : List Byte) : Int :=
  buf.foldl (fun acc b => acc * 256 + (b.val : Int)) 0

/-- Modelled from the spec: `utils.Sub` of the missing `utils` package, big-integer
subtraction (`nonce − c·secretScalar`; the source's comment at `key_v2.go:88` reads
`(m - c*secretKey) % GroupOrder`). -/
def utils.Sub (x y : Int) : Int := x - y

/-- Modelled from the spec: `utils.Mul` of the missing `utils` package, big-integer
multiplication (`c·secretScalar`). -/
def utils.Mul (x y : Int) : Int := x * y

/-- Modelled from the spec: `utils.Mod` of the missing `utils` package, `x mod m` as
`(*big.Int).Mod` computes it (Euclidean, so non-negative for a positive modulus). -/
def utils.Mod (x m : Int) : Int := x % m

end bigInt

variable {P A : Type} [AddCommGroup P]

/-- Modelled from the spec: `secp256k1.IntToScalar` of the missing `secp256k1` package;
the integer is reduced to a scalar, and scalars are taken modulo the group order. -/
def IntToScalar (S : Suite P A) (i : Int) : Int := i % S.GroupOrder

/-- Modelled from the spec: `secp256k1.ToInt` of the missing `secp256k1` package, the
integer value of a scalar. -/
def ToInt (s : Int) : Int := s

/-- The `kyber` operation `Point().Mul(s, p)`: the scalar multiple `s·p`. -/
def Mul (s : Int) (p : P) : P := s • p

/-- Modelled from the spec: `secp256k1.ScalarToPublicPoint` of the missing `secp256k1`
package; the public point of a secret scalar is `secretScalar·Generator`. -/
def ScalarToPublicPoint (S : Suite P A) (k : Int) : P := Mul k S.Generator

/-- Go's builtin `copy(dst, src)`: the first `min(len(dst), len(src))` elements of
`src` overwrite those of `dst`; returns the new `dst` and the number copied. -/
def copy (dst src : List Byte) : List Byte × Nat :=
  let l := min dst.length src.length
  (src.take l ++ dst.drop l, l)

/-- `keyFromScalar` (`key_v2.go:144-160`). -/
def keyFromScalar (S : Suite P A) (k : Int) : Except VRFError KeyV2 :=
  match S.MarshalBinary (ScalarToPublicPoint S k) with
  | .error err => .error (.couldNotMarshal err)
  | .ok rawPublicKey =>
    if rawPublicKey.length ≠ S.CompressedPublicKeyLength then
      .error (.wrongLength rawPublicKey)
    else
      let publicKey0 : List Byte := List.replicate S.CompressedPublicKeyLength 0
      let r := copy publicKey0 rawPublicKey
      if r.2 ≠ S.CompressedPublicKeyLength then
        .error .failedToCopy
      else
        .ok { k := k, PublicKey := r.1 }

/-- `Raw.Key` (`key_v2.go:25-33`). -/
def Raw.Key (S : Suite P A) (raw : Raw) : Except VRFError KeyV2 :=
  let rawKeyInt := SetBytes raw
  let k := IntToScalar S rawKeyInt
  match keyFromScalar S k with
  | .error err => .error err
  | .ok key => .ok key

/-- `Raw.String` (`key_v2.go:35-37`). -/
def Raw.String (_raw : Raw) : GoStr := "<VRF Raw Private Key>"

/-- `Raw.GoString` (`key_v2.go:39-41`). -/
def Raw.GoString (raw : Raw) : GoStr := Raw.String raw

/-- `NewV2` (`key_v2.go:50-53`); `pick` is the scalar that
`suite.Scalar().Pick(suite.RandomStream())` draws. -/
def NewV2 (S : Suite P A) (pick : Int) : Except VRFError KeyV2 :=
  keyFromScalar S pick

/-- `KeyV2.Raw` (`key_v2.go:59-61`). -/
def KeyV2.Raw (key : KeyV2) : Raw := Bytes (ToInt key.k)

/-- `KeyV2.String` (`key_v2.go:136-138`). -/
def KeyV2.String (S : Suite P A) (key : KeyV2) : GoStr :=
  "VRFKeyV2\x7bPublicKey: " ++ S.PublicKeyString key.PublicKey ++ "\x7d"

/-- `KeyV2.GoString` (`key_v2.go:140-142`). -/
def KeyV2.GoString (S : Suite P A) (key : KeyV2) : GoStr := KeyV2.String S key

/-- `KeyV2.GenerateProofWithNonce` (`key_v2.go:68-108`). -/
def GenerateProofWithNonce (E : Env P A) (key : KeyV2) (seed nonce : Int) :
    Except VRFError (Proof P) :=
  let secretKey := E.ScalarToHashBig key.k
  if !(E.RepresentsScalar secretKey && decide (BitLen seed ≤ 256)) then
    .error .badlyFormattedKeyOrSeed
  else
    let skAsScalar := IntToScalar E.toSuite secretKey
    let publicKey := Mul skAsScalar E.Generator
    match E.HashToCurve publicKey seed with
    | .error err => .error (.hashToCurve err)
    | .ok h =>
      let gamma := Mul skAsScalar h
      let sm := IntToScalar E.toSuite nonce
      let u := Mul sm E.Generator
      let uWitness := E.EthereumAddress u
      let v := Mul sm h
      match E.ScalarFromCurvePoints h publicKey gamma uWitness v with
      | .error err => .error (.scalarFromCurvePoints err)
      | .ok c =>
        -- (m - c*secretKey) % GroupOrder
        let s := utils.Mod (utils.Sub nonce (utils.Mul c secretKey)) E.GroupOrder
        match E.checkCGammaNotEqualToSHash c gamma s h with
        | some e => .error e
        | none =>
          let outputHash := E.MustHashBig (E.RandomOutputHashPrefix ++ E.LongMarshal gamma)
          let rv : Proof P :=
            { PublicKey := publicKey, Gamma := gamma, C := c, S := s, Seed := seed,
              Output := outputHash }
          let r := E.VerifyVRFProof rv
          if !r.1 || r.2.isSome then
            .error .constructedInvalidProof
          else
            .ok rv

/-- `KeyV2.GenerateProof` (`key_v2.go:116-134`) over an injected sequence of results of
`rand.Int(rand.Reader, secp256k1.GroupOrder)`, one per iteration of the `for` loop.
`none` means the loop has used up the supplied draws and is still running. -/
def GenerateProof (E : Env P A) (key : KeyV2) (seed : Int) :
    List (Except VRFError Int) → Option (Except VRFError (Proof P))
  | [] => none
  | .error err :: _ => some (.error err)
  | .ok nonce :: rest =>
    match GenerateProofWithNonce E key seed nonce with
    | .error .ErrCGammaEqualsSHash => GenerateProof E key seed rest
    | .error err => some (.error err)
    | .ok proof => some (.ok proof)

/-- Modelled from the spec: `checkCGammaNotEqualToSHash` of the missing `proof.go`;
the degenerate case of §4.2 step i is `c·gamma == s·h`, reported with the sentinel
`ErrCGammaEqualsSHash`. -/
def checkCGammaNotEqualToSHash [DecidableEq P] (S : Suite P A) (c : Int) (gamma : P) (s : Int) (h : P) :
    Option VRFError :=
  let cGamma := Mul (IntToScalar S c) gamma
  let sHash := Mul (IntToScalar S s) h
  if cGamma = sHash then some .ErrCGammaEqualsSHash else none

/-- Modelled from the spec: `linearCombination` of the missing `proof.go`, the point
`c·p1 + s·p2` of §4.3 step 2. -/
def linearCombination (S : Suite P A) (c : Int) (p1 : P) (s : Int) (p2 : P) : P :=
  Mul (IntToScalar S c) p1 + Mul (IntToScalar S s) p2

/-- Modelled from the spec: `(*Proof).VerifyVRFProof` of the missing `proof.go`, §4.3:
recompute `h`, `u' = s·Generator + c·publicKey`, `v' = s·h + c·gamma` and the challenge
`c'`; valid iff `c' == c`, `gamma` is not the identity and `output` is the hash of the
prefixed encoding of `gamma`.  A mismatch is `(false, nil)`; a provider that cannot
evaluate gives an error.  (The wrong-length case of step 5 is about serialized input;
the fields of a `Proof` record have their types.) -/
def VerifyVRFProof [DecidableEq P] (S : Suite P A) (p : Proof P) : Bool × Option VRFError :=
  match S.HashToCurve p.PublicKey p.Seed with
  | .error err => (false, some (.other err))
  | .ok h =>
    let uPrime := linearCombination S p.C p.PublicKey p.S S.Generator
    let vPrime := linearCombination S p.C p.Gamma p.S h
    let uWitness := S.EthereumAddress uPrime
    match S.ScalarFromCurvePoints h p.PublicKey p.Gamma uWitness vPrime with
    | .error err => (false, some (.other err))
    | .ok cPrime =>
      let output := S.MustHashBig (S.RandomOutputHashPrefix ++ S.LongMarshal p.Gamma)
      (decide (cPrime = p.C) && decide (p.Gamma ≠ 0) && decide (p.Output = output), none)

/-- The environment in which the two functions of `proof.go` are the spec's. -/
def specEnv [DecidableEq P] (S : Suite P A) : Env P A :=
  { toSuite := S
    checkCGammaNotEqualToSHash := checkCGammaNotEqualToSHash S
    VerifyVRFProof := VerifyVRFProof S }

/-- The cyclic group of order `n` as residues `0 ≤ val < n`: the residue `a` stands for
the point `a·Generator` of a curve group of order `n`.  Scalar multiples are computed
by one multiplication modulo `n`. -/
structure Cyc (n : Nat) where
  val : Nat
  lt : val < n
  deriving DecidableEq

/-- The residue of `a` modulo `n`. -/
def Cyc.ofNat (n : Nat) [NeZero n] (a : Nat) : Cyc n :=
  ⟨a % n, Nat.mod_lt _ (NeZero.pos n)⟩

/-- The element of `ZMod n` a residue stands for. -/
def Cyc.toZMod {n : Nat} (a : Cyc n) : ZMod n := (a.val : ZMod n)

instance Cyc.instZero {n : Nat} [NeZero n] : Zero (Cyc n) := ⟨Cyc.ofNat n 0⟩

instance Cyc.instAdd {n : Nat} [NeZero n] : Add (Cyc n) :=
  ⟨fun a b => Cyc.ofNat n (a.val + b.val)⟩

instance Cyc.instNeg {n : Nat} [NeZero n] : Neg (Cyc n) :=
  ⟨fun a => Cyc.ofNat n (n - a.val)⟩

instance Cyc.instSub {n : Nat} [NeZero n] : Sub (Cyc n) :=
  ⟨fun a b => Cyc.ofNat n (a.val + (n - b.val))⟩

instance Cyc.instSMulNat {n : Nat} [NeZero n] : SMul ℕ (Cyc n) :=
  ⟨fun k a => Cyc.ofNat n (k * a.val)⟩

instance Cyc.instSMulInt {n : Nat} [NeZero n] : SMul ℤ (Cyc n) :=
  ⟨fun k a => Cyc.ofNat n ((k % (n : Int)).toNat * a.val)⟩

instance Cyc.instAddCommGroup {n : Nat} [NeZero n] : AddCommGroup (Cyc n) :=
  have cast_ofNat : ∀ a : Nat, Cyc.toZMod (Cyc.ofNat n a) = (a : ZMod n) := fun a => by
    simp [Cyc.toZMod, Cyc.ofNat]
  Function.Injective.addCommGroup Cyc.toZMod
    (fun a b h => by
      have h2 := congrArg ZMod.val h
      simp only [Cyc.toZMod, ZMod.val_natCast, Nat.mod_eq_of_lt a.lt,
        Nat.mod_eq_of_lt b.lt] at h2
      cases a; cases b; simp_all)
    (by
      show Cyc.toZMod (Cyc.ofNat n 0) = _
      rw [cast_ofNat, Nat.cast_zero])
    (fun a b => by
      show Cyc.toZMod (Cyc.ofNat n (a.val + b.val)) = _
      rw [cast_ofNat, Nat.cast_add]
      rfl)
    (fun a => by
      show Cyc.toZMod (Cyc.ofNat n (n - a.val)) = _
      rw [cast_ofNat, Nat.cast_sub a.lt.le, ZMod.natCast_self, zero_sub]
      rfl)
    (fun a b => by
      show Cyc.toZMod (Cyc.ofNat n (a.val + (n - b.val))) = _
      rw [cast_ofNat, Nat.cast_add, Nat.cast_sub b.lt.le, ZMod.natCast_self, zero_sub,
        ← sub_eq_add_neg]
      rfl)
    (fun a k => by
      show Cyc.toZMod (Cyc.ofNat n (k * a.val)) = _
      rw [cast_ofNat, Nat.cast_mul, nsmul_eq_mul]
      rfl)
    (fun a k => by
      show Cyc.toZMod (Cyc.ofNat n ((k % (n : Int)).toNat * a.val)) = _
      have hn : (0 : Int) < n := by exact_mod_cast NeZero.pos n
      have h0 : 0 ≤ k % (n : Int) := Int.emod_nonneg _ hn.ne.symm
      have hk : (((k % (n : Int)).toNat : Nat) : ZMod n) = ((k : Int) : ZMod n) := by
        have h1 : (((k % (n : Int)).toNat : Int) : ZMod n) = ((k % (n : Int) : Int) : ZMod n) := by
          rw [Int.toNat_of_nonneg h0]
        rw [Int.cast_natCast] at h1
        rw [h1, ZMod.intCast_mod]
      rw [cast_ofNat, Nat.cast_mul, zsmul_eq_mul, hk]
      rfl)

/-- The order of the secp256k1 group. -/
def secp256k1GroupOrder : Nat :=
  0xFFFFFFFFFFFFFFFFFFFFFFFFFFFFFFFEBAAEDCE6AF48A03BBFD25E8CD0364141

instance secp256k1GroupOrder_neZero : NeZero secp256k1GroupOrder := ⟨by decide⟩

/-- A toy provider over the cyclic group `Cyc n` with generator `1`: a point other than
the identity encodes as a zero byte followed by the low byte of its residue and the
identity has no encoding, `HashToCurve` rejects the identity as public key and otherwise
is the constant point `2`, the address of a point is the point, the challenge hash is
the stub `ch` of the commitment `uWitness`, and the output hash is the sum of the
bytes. -/
def toySuite (n : Nat) [NeZero n] (ch : Cyc n → Int) : Suite (Cyc n) (Cyc n) where
  GroupOrder := n
  Generator := Cyc.ofNat n 1
  CompressedPublicKeyLength := 2
  MarshalBinary := fun p =>
    if p = 0 then .error "the identity has no encoding" else .ok [0, Fin.ofNat p.val]
  PublicKeyString := fun b => toString (b.map Fin.val)
  ScalarToHashBig := fun k => k
  RepresentsScalar := fun i => decide (0 ≤ i ∧ i < n)
  HashToCurve := fun p _ =>
    if p = 0 then .error "bad input to vrf.HashToCurve" else .ok (Cyc.ofNat n 2)
  EthereumAddress := fun p => p
  ScalarFromCurvePoints := fun _ _ _ uWitness _ => .ok (ch uWitness)
  MustHashBig := fun b => ((b.map Fin.val).sum : Nat)
  RandomOutputHashPrefix := [3]
  LongMarshal := fun p => [Fin.ofNat p.val]

/-- The challenge stub that reads the commitment back as an integer. -/
def chVal (n : Nat) (uWitness : Cyc n) : Int := (uWitness.val : Int)

/-- The value `secretKey` of `GenerateProofWithNonce` (`key_v2.go:69`). -/
def secretKeyOf (S : Suite P A) (key : KeyV2) : Int := S.ScalarToHashBig key.k

/-- The value `publicKey` of `GenerateProofWithNonce` (`key_v2.go:73-74`). -/
def publicKeyOf (S : Suite P A) (key : KeyV2) : P :=
  Mul (IntToScalar S (secretKeyOf S key)) S.Generator

/-- The value `gamma` of `GenerateProofWithNonce` (`key_v2.go:79`) for the hash point `h`. -/
def gammaOf (S : Suite P A) (key : KeyV2) (h : P) : P :=
  Mul (IntToScalar S (secretKeyOf S key)) h

/-- The value `s` of `GenerateProofWithNonce` (`key_v2.go:89`) for the challenge `c`. -/
def responseOf (S : Suite P A) (key : KeyV2) (nonce c : Int) : Int :=
  utils.Mod (utils.Sub nonce (utils.Mul c (secretKeyOf S key))) S.GroupOrder

/-- The value `c` of `GenerateProofWithNonce` (`key_v2.go:80-84`) for the hash point `h`,
as `ScalarFromCurvePoints` returns it. -/
def challengeOf (S : Suite P A) (key : KeyV2) (nonce : Int) (h : P) : Except String Int :=
  S.ScalarFromCurvePoints h (publicKeyOf S key) (gammaOf S key h)
    (S.EthereumAddress (Mul (IntToScalar S nonce) S.Generator)) (Mul (IntToScalar S nonce) h)

/-- The record `rv` of `GenerateProofWithNonce` (`key_v2.go:93-102`) for the hash point
`h` and the challenge `c`. -/
def assembled (S : Suite P A) (key : KeyV2) (seed nonce : Int) (h : P) (c : Int) : Proof P :=
  { PublicKey := publicKeyOf S key
    Gamma := gammaOf S key h
    C := c
    S := responseOf S key nonce c
    Seed := seed
    Output := S.MustHashBig (S.RandomOutputHashPrefix ++ S.LongMarshal (gammaOf S key h)) }

/-- The outcome of one iteration of the loop of `GenerateProof` when it does not
`continue`: the error of the draw, or the result of `GenerateProofWithNonce`. -/
def attempt (E : Env P A) (key : KeyV2) (seed : Int) :
    Except VRFError Int → Except VRFError (Proof P)
  | .error err => .error err
  | .ok nonce => GenerateProofWithNonce E key seed nonce

/-! ## The toy scenario -/

/-- The toy provider of order 11 whose challenge stub reads the commitment. -/
def toy11 : Suite (Cyc 11) (Cyc 11) := toySuite 11 (chVal 11)

/-- The key with scalar 7 over the toy group of order 11. -/
def toyKey : KeyV2 := { k := 7, PublicKey := [0, 7] }

/-- The proof `GenerateProofWithNonce` builds for `toyKey`, seed 3 and nonce 5. -/
def toyProof : Proof (Cyc 11) :=
  { PublicKey := Cyc.ofNat 11 7, Gamma := Cyc.ofNat 11 3, C := 5, S := 3, Seed := 3,
    Output := 6 }

/-- The toy provider over the cyclic group of the order of secp256k1. -/
def toySecp : Suite (Cyc secp256k1GroupOrder) (Cyc secp256k1GroupOrder) :=
  toySuite secp256k1GroupOrder (chVal secp256k1GroupOrder)

/-- A raw key of the canonical 32 bytes: the byte 1, thirty zero bytes, the byte 7. -/
def raw32 : Raw := 1 :: (List.replicate 30 0 ++ [7])

/-- A raw key of the canonical 32 bytes with leading zeros: 31 zero bytes, the byte 7. -/
def raw32LeadingZero : Raw := List.replicate 31 0 ++ [7]

/-- A raw key of the canonical 32 bytes above the group order: 32 bytes `0xff`. -/
def raw32Max : Raw := List.replicate 32 255

/-- The key `Raw.Key` returns for `raw32Max` over the group of the order of secp256k1:
its scalar is `2^256 - 1 - secp256k1GroupOrder`. -/
def toyMaxKey : KeyV2 :=
  { k := 432420386565659656852420866394968145598, PublicKey := [0, 190] }

/-! ## Lemmas on the big-integer helpers -/

/-- The order `n` annihilates every element of `Cyc n`. -/
theorem Cyc.order_zsmul {n : Nat} [NeZero n] (q : Cyc n) : ((n : Nat) : Int) • q = 0 := by
  show Cyc.ofNat n ((((n : Nat) : Int) % (n : Int)).toNat * q.val) = Cyc.ofNat n 0
  simp

theorem bitLenAux_le_iff (fuel : Nat) : ∀ (n k : Nat), n ≤ fuel →
    (bitLenAux fuel n ≤ k ↔ n < 2 ^ k) := by
  induction fuel with
  | zero =>
    intro n k hn
    have : n = 0 := by omega
    subst this
    simp [bitLenAux]
  | succ fuel ih =>
    intro n k hn
    unfold bitLenAux
    by_cases h0 : n = 0
    · subst h0; simp
    · rw [if_neg h0]
      cases k with
      | zero => simp; omega
      | succ k =>
        have hle : n / 2 ≤ fuel := by omega
        rw [Nat.add_le_add_iff_right, ih (n / 2) k hle, pow_succ]
        omega

/-- `BitLen` is the bit length: `x.BitLen() ≤ k` exactly when `|x| < 2^k`. -/
theorem BitLen_le_iff (x : Int) (k : Nat) : BitLen x ≤ k ↔ x.natAbs < 2 ^ k :=
  bitLenAux_le_iff _ _ _ (Nat.le_refl _)

theorem bytesAux_eq (fuel : Nat) : ∀ (n : Nat) (acc : List Byte), n ≤ fuel →
    bytesAux fuel n acc =
      ((Nat.digits 256 n).map (fun d => (Fin.ofNat d : Byte))).reverse ++ acc := by
  induction fuel with
  | zero =>
    intro n acc hn
    have : n = 0 := by omega
    subst this
    simp [bytesAux]
  | succ fuel ih =>
    intro n acc hn
    unfold bytesAux
    by_cases h0 : n = 0
    · subst h0; simp
    · rw [if_neg h0, ih (n / 256) _ (by omega),
        Nat.digits_def' (by norm_num) (Nat.pos_of_ne_zero h0)]
      simp

theorem Bytes_eq (x : Int) :
    Bytes x = ((Nat.digits 256 x.natAbs).map (fun d => (Fin.ofNat d : Byte))).reverse := by
  unfold Bytes
  rw [bytesAux_eq _ _ _ (Nat.le_refl _), List.append_nil]

theorem foldl_setBytes (b : List Byte) : ∀ init : Int,
    b.foldl (fun acc d => acc * 256 + (d.val : Int)) init =
      init * 256 ^ b.length + ((Nat.ofDigits 256 (b.reverse.map Fin.val) : Nat) : Int) := by
  induction b with
  | nil => intro init; simp
  | cons x xs ih =>
    intro init
    rw [List.foldl_cons, ih]
    simp only [List.reverse_cons, List.map_append, List.map_cons, List.map_nil,
      Nat.ofDigits_append, Nat.ofDigits_singleton, List.length_map, List.length_reverse,
      List.length_cons]
    push_cast
    ring

theorem SetBytes_eq (b : List Byte) :
    SetBytes b = ((Nat.ofDigits 256 (b.reverse.map Fin.val) : Nat) : Int) := by
  unfold SetBytes
  rw [foldl_setBytes]
  simp

theorem ofNat_val (x : Byte) : (Fin.ofNat x.val : Byte) = x := by
  apply Fin.ext
  simp [Fin.ofNat, Nat.mod_eq_of_lt x.isLt]

theorem val_ofNat {d : Nat} (h : d < 256) : ((Fin.ofNat d : Byte)).val = d := by
  simp [Fin.ofNat, Nat.mod_eq_of_lt h]

theorem SetBytes_Bytes (x : Int) : SetBytes (Bytes x) = x.natAbs := by
  rw [SetBytes_eq, Bytes_eq, List.reverse_reverse, List.map_map]
  have : List.map (Fin.val ∘ fun d => (Fin.ofNat d : Byte)) (Nat.digits 256 x.natAbs) =
      Nat.digits 256 x.natAbs := by
    conv_rhs => rw [← List.map_id (Nat.digits 256 x.natAbs)]
    apply List.map_congr_left
    intro d hd
    exact val_ofNat (Nat.digits_lt_base (by norm_num) hd)
  rw [this, Nat.ofDigits_digits]

theorem Bytes_SetBytes (b : List Byte) (hb : b.head? ≠ some 0) : Bytes (SetBytes b) = b := by
  rw [Bytes_eq, SetBytes_eq, Int.natAbs_ofNat, Nat.digits_ofDigits 256 (by norm_num)]
  · rw [List.map_map]
    have : List.map ((fun d => (Fin.ofNat d : Byte)) ∘ Fin.val) b.reverse = b.reverse := by
      conv_rhs => rw [← List.map_id b.reverse]
      apply List.map_congr_left
      intro d _
      exact ofNat_val d
    rw [this, List.reverse_reverse]
  · intro l hl
    obtain ⟨x, _, rfl⟩ := List.mem_map.mp hl
    exact x.isLt
  · intro hne
    rw [List.getLast_map]
    · intro h0
      apply hb
      cases b with
      | nil => simp at hne
      | cons x xs =>
        simp at h0
        simp only [List.head?_cons, Option.some.injEq]
        exact Fin.ext h0

theorem Bytes_head (x : Int) : (Bytes x).head? ≠ some 0 := by
  rw [Bytes_eq, List.head?_reverse]
  by_cases hx : x.natAbs = 0
  · rw [hx]; simp
  · have hne := Nat.getLast_digit_ne_zero 256 hx
    have hnil : Nat.digits 256 x.natAbs ≠ [] := Nat.digits_ne_nil_iff_ne_zero.mpr hx
    rw [List.getLast?_eq_getLast _ (by simpa using hnil), List.getLast_map]
    intro h0
    injection h0 with h0
    apply hne
    have hlt : (Nat.digits 256 x.natAbs).getLast hnil < 256 :=
      Nat.digits_lt_base (by norm_num) (List.getLast_mem hnil)
    have := congrArg Fin.val h0
    rw [val_ofNat hlt] at this
    simpa using this
/-! ## Lemmas on `GenerateProofWithNonce` -/

/-- The guard of `key_v2.go:70`. -/
theorem GenerateProofWithNonce_guard (E : Env P A) (key : KeyV2) (seed nonce : Int)
    (h : ¬ (E.RepresentsScalar (E.ScalarToHashBig key.k) = true ∧ BitLen seed ≤ 256)) :
    GenerateProofWithNonce E key seed nonce = .error .badlyFormattedKeyOrSeed := by
  unfold GenerateProofWithNonce
  simp only []
  rw [if_pos]
  by_cases h1 : E.RepresentsScalar (E.ScalarToHashBig key.k) = true
  · have h2 : ¬ BitLen seed ≤ 256 := fun h2 => h ⟨h1, h2⟩
    simp [h1, h2]
  · simp [h1]

/-- What a successful `GenerateProofWithNonce` went through. -/
theorem GenerateProofWithNonce_ok {E : Env P A} {key : KeyV2} {seed nonce : Int}
    {proof : Proof P} (hok : GenerateProofWithNonce E key seed nonce = .ok proof) :
    ∃ h c, E.RepresentsScalar (secretKeyOf E.toSuite key) = true ∧ BitLen seed ≤ 256 ∧
      E.HashToCurve (publicKeyOf E.toSuite key) seed = .ok h ∧
      challengeOf E.toSuite key nonce h = .ok c ∧
      E.checkCGammaNotEqualToSHash c (gammaOf E.toSuite key h)
        (responseOf E.toSuite key nonce c) h = none ∧
      proof = assembled E.toSuite key seed nonce h c ∧
      E.VerifyVRFProof proof = (true, none) := by
  unfold GenerateProofWithNonce at hok
  simp only [] at hok
  split at hok
  · cases hok
  · rename_i hguard
    split at hok
    · cases hok
    · rename_i h hh
      split at hok
      · cases hok
      · rename_i c hc
        split at hok
        · cases hok
        · rename_i hdeg
          split at hok
          · cases hok
          · rename_i hver
            injection hok with hok
            subst hok
            refine ⟨h, c, ?_, ?_, hh, hc, hdeg, rfl, ?_⟩
            · simp only [Bool.not_eq_true, Bool.not_eq_eq_eq_not, Bool.not_true,
                Bool.and_eq_false_imp, decide_eq_false_iff_not, not_le] at hguard
              by_contra hc'
              simp_all [secretKeyOf]
            · simp only [Bool.not_eq_true, Bool.not_eq_eq_eq_not, Bool.not_true] at hguard
              by_contra hc'
              simp_all
            · simp only [Bool.or_eq_true, Bool.not_eq_eq_eq_not, Bool.not_true,
                Option.isSome_iff_ne_none, not_or] at hver
              apply Prod.ext
              · simpa using hver.1
              · simpa using hver.2

/-- After the guard, both hash providers and the degenerate check have passed, the
self-check alone decides `GenerateProofWithNonce`. -/
theorem GenerateProofWithNonce_steps (E : Env P A) {key : KeyV2} {seed nonce : Int}
    {h : P} {c : Int}
    (hk : E.RepresentsScalar (secretKeyOf E.toSuite key) = true) (hseed : BitLen seed ≤ 256)
    (hh : E.HashToCurve (publicKeyOf E.toSuite key) seed = .ok h)
    (hc : challengeOf E.toSuite key nonce h = .ok c)
    (hdeg : E.checkCGammaNotEqualToSHash c (gammaOf E.toSuite key h)
      (responseOf E.toSuite key nonce c) h = none) :
    GenerateProofWithNonce E key seed nonce =
      if E.VerifyVRFProof (assembled E.toSuite key seed nonce h c) = (true, none) then
        .ok (assembled E.toSuite key seed nonce h c)
      else .error .constructedInvalidProof := by
  unfold GenerateProofWithNonce
  simp only [secretKeyOf, publicKeyOf, gammaOf, responseOf, challengeOf, assembled] at *
  simp only [hk, hseed, hh, hc, hdeg, decide_True, Bool.and_self, Bool.not_true,
    Bool.false_eq_true, if_false]
  generalize E.VerifyVRFProof _ = r
  rcases r with ⟨valid, err⟩
  cases valid <;> cases err <;> simp

/-- The steps that make `GenerateProofWithNonce` succeed. -/
theorem GenerateProofWithNonce_eq_ok (E : Env P A) {key : KeyV2} {seed nonce : Int}
    {h : P} {c : Int}
    (hk : E.RepresentsScalar (secretKeyOf E.toSuite key) = true) (hseed : BitLen seed ≤ 256)
    (hh : E.HashToCurve (publicKeyOf E.toSuite key) seed = .ok h)
    (hc : challengeOf E.toSuite key nonce h = .ok c)
    (hdeg : E.checkCGammaNotEqualToSHash c (gammaOf E.toSuite key h)
      (responseOf E.toSuite key nonce c) h = none)
    (hver : E.VerifyVRFProof (assembled E.toSuite key seed nonce h c) = (true, none)) :
    GenerateProofWithNonce E key seed nonce = .ok (assembled E.toSuite key seed nonce h c) := by
  rw [GenerateProofWithNonce_steps E hk hseed hh hc hdeg, if_pos hver]

/-- A successful `GenerateProof` returns the proof of one of its attempts. -/
theorem GenerateProof_ok {E : Env P A} {key : KeyV2} {seed : Int} {proof : Proof P} :
    ∀ {draws : List (Except VRFError Int)},
      GenerateProof E key seed draws = some (.ok proof) →
      ∃ nonce, GenerateProofWithNonce E key seed nonce = .ok proof := by
  intro draws
  induction draws with
  | nil => intro h; simp [GenerateProof] at h
  | cons d rest ih =>
    intro h
    cases d with
    | error err => simp [GenerateProof] at h
    | ok nonce =>
      unfold GenerateProof at h
      split at h
      · exact ih h
      · simp at h
      · rename_i p hp
        refine ⟨nonce, ?_⟩
        simp only [Option.some.injEq, Except.ok.injEq] at h
        rw [hp, h]

/-- The first draw that does not make the loop `continue` decides `GenerateProof`. -/
theorem GenerateProof_retry (E : Env P A) (key : KeyV2) (seed : Int) :
    ∀ (pre : List Int) (tail : List (Except VRFError Int)),
      (∀ nonce ∈ pre,
        GenerateProofWithNonce E key seed nonce = .error .ErrCGammaEqualsSHash) →
      GenerateProof E key seed (pre.map Except.ok ++ tail) = GenerateProof E key seed tail := by
  intro pre
  induction pre with
  | nil => intro tail _; rfl
  | cons nonce pre ih =>
    intro tail hpre
    have h1 := hpre nonce (List.mem_cons_self _ _)
    have h2 := ih tail (fun m hm => hpre m (List.mem_cons_of_mem _ hm))
    simp only [List.map_cons, List.cons_append]
    rw [GenerateProof, h1]
    exact h2

/-- One iteration of `GenerateProof` that does not `continue`. -/
theorem GenerateProof_decided (E : Env P A) (key : KeyV2) (seed : Int)
    (d : Except VRFError Int) (rest : List (Except VRFError Int))
    (hd : ∀ nonce, d = .ok nonce →
      GenerateProofWithNonce E key seed nonce ≠ .error .ErrCGammaEqualsSHash) :
    GenerateProof E key seed (d :: rest) = some (attempt E key seed d) := by
  cases d with
  | error err => rfl
  | ok nonce =>
    have h := hd nonce rfl
    unfold GenerateProof
    simp only [attempt]
    split
    · rename_i heq; exact absurd heq h
    · rename_i heq; rw [heq]
    · rename_i heq; rw [heq]

/-- Go's `copy` into an array of the length of the source copies all of it. -/
theorem copy_replicate (src : List Byte) (z : Byte) :
    copy (List.replicate src.length z) src = (src, src.length) := by
  simp [copy]

/-- When `keyFromScalar` succeeds and what it returns. -/
theorem keyFromScalar_eq (S : Suite P A) (k : Int) :
    keyFromScalar S k =
      match S.MarshalBinary (ScalarToPublicPoint S k) with
      | .error err => .error (.couldNotMarshal err)
      | .ok enc =>
        if enc.length = S.CompressedPublicKeyLength then .ok { k := k, PublicKey := enc }
        else .error (.wrongLength enc) := by
  unfold keyFromScalar
  cases hm : S.MarshalBinary (ScalarToPublicPoint S k) with
  | error err => rfl
  | ok enc =>
    simp only []
    by_cases hl : enc.length = S.CompressedPublicKeyLength
    · rw [if_neg (not_not.mpr hl), if_pos hl, ← hl, copy_replicate]
      simp
    · rw [if_pos hl, if_neg hl]

theorem keyFromScalar_ok {S : Suite P A} {k : Int} {key : KeyV2}
    (h : keyFromScalar S k = .ok key) :
    key.k = k ∧ S.MarshalBinary (ScalarToPublicPoint S key.k) = .ok key.PublicKey ∧
      key.PublicKey.length = S.CompressedPublicKeyLength := by
  rw [keyFromScalar_eq] at h
  split at h
  · cases h
  · rename_i enc hm
    split at h
    · rename_i hl
      injection h with h
      subst h
      exact ⟨rfl, hm, hl⟩
    · cases h

theorem keyFromScalar_error {S : Suite P A} {k : Int}
    (h : ∀ enc, S.MarshalBinary (ScalarToPublicPoint S k) = .ok enc →
      enc.length ≠ S.CompressedPublicKeyLength) :
    ∃ err, keyFromScalar S k = .error err := by
  rw [keyFromScalar_eq]
  split
  · exact ⟨_, rfl⟩
  · rename_i enc hm
    rw [if_neg (h enc hm)]
    exact ⟨_, rfl⟩

theorem Raw.Key_eq (S : Suite P A) (raw : Raw) :
    Raw.Key S raw = keyFromScalar S (IntToScalar S (SetBytes raw)) := by
  unfold Raw.Key
  simp only []
  split <;> rename_i h <;> rw [h]

/-! ## Lemmas on the spec's verification -/

/-- Scalars act modulo an integer that annihilates the point. -/
theorem emod_zsmul {n : Int} {q : P} (hq : n • q = 0) (a : Int) : (a % n) • q = a • q := by
  rw [Int.emod_def, sub_smul, mul_comm, mul_smul, hq, smul_zero, sub_zero]

/-- The commitment is recovered from the response and the challenge:
`s·p + c·(sk·p) = nonce·p` for `s = (nonce − c·sk) mod n`. -/
theorem response_recovers_commitment (S : Suite P A) (key : KeyV2) (nonce c : Int) (p : P)
    (hp : S.GroupOrder • p = 0) :
    Mul (IntToScalar S (responseOf S key nonce c)) p +
        Mul (IntToScalar S c) (Mul (IntToScalar S (secretKeyOf S key)) p) =
      Mul (IntToScalar S nonce) p := by
  simp only [Mul, IntToScalar, responseOf, utils.Mod, utils.Sub, utils.Mul]
  have hp' : S.GroupOrder • (((secretKeyOf S key) % S.GroupOrder) • p) = 0 := by
    rw [smul_comm, hp, smul_zero]
  rw [emod_zsmul hp, emod_zsmul hp, emod_zsmul hp', emod_zsmul hp, emod_zsmul hp,
    ← mul_smul, ← add_smul]
  congr 1
  ring

/-- The spec's verification accepts the record `GenerateProofWithNonce` assembles, as
long as `gamma` is not the identity. -/
theorem VerifyVRFProof_assembled [DecidableEq P] (S : Suite P A) (key : KeyV2)
    (seed nonce : Int) (h : P) (c : Int) (hord : ∀ q : P, S.GroupOrder • q = 0)
    (hh : S.HashToCurve (publicKeyOf S key) seed = .ok h)
    (hc : challengeOf S key nonce h = .ok c) :
    VerifyVRFProof S (assembled S key seed nonce h c) =
      (decide (gammaOf S key h ≠ 0), none) := by
  have hu := response_recovers_commitment S key nonce c S.Generator (hord _)
  have hv := response_recovers_commitment S key nonce c h (hord _)
  unfold VerifyVRFProof
  simp only [assembled, hh, linearCombination]
  rw [add_comm] at hu hv
  simp only [publicKeyOf, gammaOf] at hu hv hc ⊢
  rw [hu, hv]
  simp only [challengeOf, publicKeyOf, gammaOf] at hc
  rw [hc]
  simp

/-- In a group in which every point other than the identity has order `GroupOrder`,
`gamma = sk·h` is not the identity when `publicKey = sk·Generator` and `h` are not. -/
theorem gamma_ne_zero (S : Suite P A) (key : KeyV2) (h : P)
    (hord : ∀ q : P, S.GroupOrder • q = 0)
    (hprime : ∀ (a : Int) (q : P), q ≠ 0 → a • q = 0 → S.GroupOrder ∣ a)
    (hpk : publicKeyOf S key ≠ 0) (hh0 : h ≠ 0) : gammaOf S key h ≠ 0 := by
  intro hg
  obtain ⟨t, ht⟩ := hprime _ h hh0 hg
  apply hpk
  show (IntToScalar S (secretKeyOf S key)) • S.Generator = 0
  rw [ht, mul_smul, hord]

/-- Every element of `Cyc p` other than the identity has order `p` when `p` is prime. -/
theorem Cyc.dvd_of_zsmul_eq_zero {p : Nat} [NeZero p] (hp : p.Prime) (a : Int) (q : Cyc p)
    (hq : q ≠ 0) (h : a • q = 0) : (p : Int) ∣ a := by
  have hpos : (0 : Int) < p := by exact_mod_cast hp.pos
  have h0 : 0 ≤ a % (p : Int) := Int.emod_nonneg _ hpos.ne.symm
  have hlt : a % (p : Int) < p := Int.emod_lt_of_pos _ hpos
  have h1 : Cyc.ofNat p ((a % (p : Int)).toNat * q.val) = Cyc.ofNat p 0 := h
  have h2 : ((a % (p : Int)).toNat * q.val) % p = 0 := by
    have := congrArg Cyc.val h1
    simpa [Cyc.ofNat] using this
  have hqv : q.val ≠ 0 := by
    intro hz
    apply hq
    show q = Cyc.ofNat p 0
    cases q with
    | mk v lt =>
      simp only [Cyc.ofNat, Cyc.mk.injEq]
      simp only at hz
      rw [hz, Nat.zero_mod]
  rcases (Nat.Prime.dvd_mul hp).mp (Nat.dvd_of_mod_eq_zero h2) with hd | hd
  · have hz : (a % (p : Int)).toNat = 0 := by
      apply Nat.eq_zero_of_dvd_of_lt hd
      omega
    have : a % (p : Int) = 0 := by omega
    exact Int.dvd_of_emod_eq_zero this
  · exact absurd (Nat.eq_zero_of_dvd_of_lt hd q.lt) hqv

/-! ## The claims -/

/-- C1: every proof that `GenerateProof` (over any sequence of draws) or
`GenerateProofWithNonce` (for any nonce) returns without error is accepted by
`VerifyVRFProof`: it yields `true` with no error, whatever the verifier is. -/
theorem generated_proof_is_accepted (E : Env P A) (key : KeyV2) (seed : Int)
    (proof : Proof P)
    (h : (∃ draws, GenerateProof E key seed draws = some (.ok proof)) ∨
      (∃ nonce, GenerateProofWithNonce E key seed nonce = .ok proof)) :
    E.VerifyVRFProof proof = (true, none) := by
  have h' : ∃ nonce, GenerateProofWithNonce E key seed nonce = .ok proof := by
    rcases h with ⟨draws, hd⟩ | h
    · exact GenerateProof_ok hd
    · exact h
  obtain ⟨nonce, hn⟩ := h'
  obtain ⟨_, _, _, _, _, _, _, _, hver⟩ := GenerateProofWithNonce_ok hn
  exact hver

/-- C1 at the toy key with scalar 7, seed 3, one draw 5, with the spec's verifier. -/
theorem generated_proof_is_accepted_witness :
    GenerateProof (specEnv toy11) toyKey 3 [.ok 5] = some (.ok toyProof) ∧
      VerifyVRFProof toy11 toyProof = (true, none) :=
  ⟨by decide,
    generated_proof_is_accepted (specEnv toy11) toyKey 3 toyProof
      (Or.inl ⟨[.ok 5], by decide⟩)⟩

/-- C3: if `seed.BitLen() > 256` then `GenerateProofWithNonce` returns the
"badly-formatted key or seed" error for every key and nonce, and `GenerateProof` fails
in its first iteration (with that error, or with the error of the draw) without
retrying; no sequence of draws yields a proof. -/
theorem oversized_seed_is_rejected (E : Env P A) (key : KeyV2) (seed : Int)
    (h : 256 < BitLen seed) :
    (∀ nonce, GenerateProofWithNonce E key seed nonce = .error .badlyFormattedKeyOrSeed) ∧
    (∀ nonce rest, GenerateProof E key seed (.ok nonce :: rest) =
      some (.error .badlyFormattedKeyOrSeed)) ∧
    (∀ err rest, GenerateProof E key seed (.error err :: rest) = some (.error err)) ∧
    (∀ draws proof, GenerateProof E key seed draws ≠ some (.ok proof)) := by
  have hg : ∀ nonce,
      GenerateProofWithNonce E key seed nonce = .error .badlyFormattedKeyOrSeed :=
    fun nonce => GenerateProofWithNonce_guard E key seed nonce (fun hc => by omega)
  refine ⟨hg, ?_, ?_, ?_⟩
  · intro nonce rest
    unfold GenerateProof
    rw [hg nonce]
  · intro err rest
    rfl
  · intro draws proof hp
    obtain ⟨nonce, hn⟩ := GenerateProof_ok hp
    rw [hg nonce] at hn
    cases hn

/-- C3 at the seed `2^256` (bit length 257) for the toy key. -/
theorem oversized_seed_is_rejected_witness :
    GenerateProofWithNonce (specEnv toy11) toyKey (2 ^ 256) 5 =
      .error .badlyFormattedKeyOrSeed :=
  (oversized_seed_is_rejected (specEnv toy11) toyKey (2 ^ 256)
    (by rw [← Nat.not_le, BitLen_le_iff]; norm_num)).1 5

/-- C5: for a fixed key and seed and two nonces that differ modulo the group order, two
successful runs of `GenerateProofWithNonce` give proofs with the same `Gamma`, `Output`,
`PublicKey` and `Seed` and with different `(C, S)` pairs. -/
theorem nonce_changes_only_challenge_response (E : Env P A) (key : KeyV2)
    (seed n1 n2 : Int) (p1 p2 : Proof P)
    (hne : n1 % E.GroupOrder ≠ n2 % E.GroupOrder)
    (h1 : GenerateProofWithNonce E key seed n1 = .ok p1)
    (h2 : GenerateProofWithNonce E key seed n2 = .ok p2) :
    p1.Gamma = p2.Gamma ∧ p1.Output = p2.Output ∧ p1.PublicKey = p2.PublicKey ∧
      p1.Seed = p2.Seed ∧ (p1.C, p1.S) ≠ (p2.C, p2.S) := by
  obtain ⟨h, c1, _, _, hh1, _, _, hp1, _⟩ := GenerateProofWithNonce_ok h1
  obtain ⟨h', c2, _, _, hh2, _, _, hp2, _⟩ := GenerateProofWithNonce_ok h2
  have hh : h' = h := by
    rw [hh1] at hh2
    injection hh2 with hh2
    exact hh2.symm
  subst hh
  subst hp1 hp2
  refine ⟨rfl, rfl, rfl, rfl, ?_⟩
  intro hcs
  simp only [assembled, Prod.mk.injEq] at hcs
  obtain ⟨hc, hs⟩ := hcs
  subst hc
  apply hne
  simp only [responseOf, utils.Mod, utils.Sub, utils.Mul] at hs
  have h3 : (n1 - c1 * secretKeyOf E.toSuite key) ≡ (n2 - c1 * secretKeyOf E.toSuite key)
      [ZMOD E.GroupOrder] := hs
  have h4 := Int.ModEq.add_right (c1 * secretKeyOf E.toSuite key) h3
  simpa using h4

/-- C5 at the toy key, seed 3 and the nonces 5 and 6. -/
theorem nonce_changes_only_challenge_response_witness :
    toyProof.Gamma = (assembled toy11 toyKey 3 6 (Cyc.ofNat 11 2) 6).Gamma ∧
      toyProof.Output = (assembled toy11 toyKey 3 6 (Cyc.ofNat 11 2) 6).Output ∧
      toyProof.PublicKey = (assembled toy11 toyKey 3 6 (Cyc.ofNat 11 2) 6).PublicKey ∧
      toyProof.Seed = (assembled toy11 toyKey 3 6 (Cyc.ofNat 11 2) 6).Seed ∧
      (toyProof.C, toyProof.S) ≠
        ((assembled toy11 toyKey 3 6 (Cyc.ofNat 11 2) 6).C,
          (assembled toy11 toyKey 3 6 (Cyc.ofNat 11 2) 6).S) :=
  nonce_changes_only_challenge_response (specEnv toy11) toyKey 3 5 6 toyProof
    (assembled toy11 toyKey 3 6 (Cyc.ofNat 11 2) 6) (by decide) (by decide) (by decide)

/-- C6: a key that `keyFromScalar`, `NewV2` or `Raw.Key` returns without error has as
`PublicKey` the encoding `MarshalBinary` gives for `k·Generator`, `k` the scalar it
stores, of exactly `CompressedPublicKeyLength` bytes; when the point has no encoding of
that length each constructor returns an error (and with it no key). -/
theorem constructed_key_invariant (S : Suite P A) :
    (∀ key, ((∃ k, keyFromScalar S k = .ok key) ∨ (∃ pick, NewV2 S pick = .ok key) ∨
        (∃ raw, Raw.Key S raw = .ok key)) →
      S.MarshalBinary (Mul key.k S.Generator) = .ok key.PublicKey ∧
        key.PublicKey.length = S.CompressedPublicKeyLength) ∧
    (∀ k, (∀ enc, S.MarshalBinary (Mul k S.Generator) = .ok enc →
        enc.length ≠ S.CompressedPublicKeyLength) →
      (∃ err, keyFromScalar S k = .error err) ∧ (∃ err, NewV2 S k = .error err)) ∧
    (∀ raw, (∀ enc, S.MarshalBinary (Mul (IntToScalar S (SetBytes raw)) S.Generator) = .ok enc →
        enc.length ≠ S.CompressedPublicKeyLength) →
      ∃ err, Raw.Key S raw = .error err) := by
  refine ⟨?_, ?_, ?_⟩
  · intro key h
    have h' : ∃ k, keyFromScalar S k = .ok key := by
      rcases h with h | ⟨pick, h⟩ | ⟨raw, h⟩
      · exact h
      · exact ⟨pick, h⟩
      · exact ⟨_, (Raw.Key_eq S raw) ▸ h⟩
    obtain ⟨k, hk⟩ := h'
    exact (keyFromScalar_ok hk).2
  · intro k h
    exact ⟨keyFromScalar_error h, keyFromScalar_error h⟩
  · intro raw h
    rw [Raw.Key_eq]
    exact keyFromScalar_error h

/-- C6 at the toy key: `Raw.Key` on the byte 7 returns it, and it has the invariant. -/
theorem constructed_key_invariant_witness :
    Raw.Key toy11 [7] = .ok toyKey ∧
      toy11.MarshalBinary (Mul toyKey.k toy11.Generator) = .ok toyKey.PublicKey ∧
      toyKey.PublicKey.length = toy11.CompressedPublicKeyLength :=
  ⟨by decide, (constructed_key_invariant toy11).1 toyKey (Or.inr (Or.inr ⟨[7], by decide⟩))⟩

/-- C7: over an injected sequence of draws, the result of `GenerateProof` is the outcome
of the first iteration that is not the degenerate-case error: the draws before it, each
giving `ErrCGammaEqualsSHash`, are discarded, and that iteration's outcome (a proof, any
other error of `GenerateProofWithNonce`, or the error of the draw itself) is returned
unchanged, whatever draws follow; while every draw is degenerate nothing is returned. -/
theorem retry_only_on_degenerate_case (E : Env P A) (key : KeyV2) (seed : Int)
    (pre : List Int) (d : Except VRFError Int) (rest : List (Except VRFError Int))
    (hpre : ∀ nonce ∈ pre,
      GenerateProofWithNonce E key seed nonce = .error .ErrCGammaEqualsSHash)
    (hd : ∀ nonce, d = .ok nonce →
      GenerateProofWithNonce E key seed nonce ≠ .error .ErrCGammaEqualsSHash) :
    GenerateProof E key seed (pre.map Except.ok ++ d :: rest) = some (attempt E key seed d) ∧
      GenerateProof E key seed (pre.map Except.ok) = none := by
  constructor
  · rw [GenerateProof_retry E key seed pre (d :: rest) hpre]
    exact GenerateProof_decided E key seed d rest hd
  · have h := GenerateProof_retry E key seed pre [] hpre
    rw [List.append_nil] at h
    rw [h]
    rfl

/-- C7 at the toy key: the nonce 0 is degenerate and discarded, the nonce 5 gives the
returned proof, and the draw after it is never looked at. -/
theorem retry_only_on_degenerate_case_witness :
    GenerateProofWithNonce (specEnv toy11) toyKey 3 0 = .error .ErrCGammaEqualsSHash ∧
      GenerateProof (specEnv toy11) toyKey 3 [.ok 0, .ok 5, .error (.other "rand")] =
        some (.ok toyProof) :=
  ⟨by decide,
    ((retry_only_on_degenerate_case (specEnv toy11) toyKey 3 [0] (.ok 5)
      [.error (.other "rand")] (by decide)
      (fun nonce h => by injection h with h; subst h; decide)).1).trans (by decide)⟩

omit [AddCommGroup P] in
/-- C9: `Raw.String` and `Raw.GoString` are the fixed placeholder for every raw value,
and `KeyV2.String` and `KeyV2.GoString` of two keys with equal `PublicKey` fields are
equal whatever scalars they hold. -/
theorem formatting_hides_scalar (S : Suite P A) :
    (∀ raw : Raw, Raw.String raw = "<VRF Raw Private Key>" ∧
      Raw.GoString raw = "<VRF Raw Private Key>") ∧
    (∀ key1 key2 : KeyV2, key1.PublicKey = key2.PublicKey →
      KeyV2.String S key1 = KeyV2.String S key2 ∧
        KeyV2.GoString S key1 = KeyV2.GoString S key2) := by
  refine ⟨fun _ => ⟨rfl, rfl⟩, fun key1 key2 h => ?_⟩
  simp only [KeyV2.GoString, KeyV2.String, h, and_self]

/-- C9 at two toy keys with the scalars 7 and 4 and the same `PublicKey` field. -/
theorem formatting_hides_scalar_witness :
    KeyV2.String toy11 toyKey = KeyV2.String toy11 { k := 4, PublicKey := [0, 7] } ∧
      KeyV2.GoString toy11 toyKey = KeyV2.GoString toy11 { k := 4, PublicKey := [0, 7] } :=
  (formatting_hides_scalar toy11).2 toyKey { k := 4, PublicKey := [0, 7] } rfl

/-- C10: over a group in which the positive group order annihilates every point and
every point other than the identity has that order, with a `HashToCurve` that accepts
and returns only points other than the identity, and with the spec's verification: for
every key, every seed with `BitLen ≤ 256` and every nonce for which `HashToCurve` and the
challenge hash succeed and the degenerate check passes, the response
`s = (nonce − c·secretKey) mod GroupOrder` lies in `[0, GroupOrder)` and satisfies
`s·Generator + c·publicKey = nonce·Generator` and `s·h + c·gamma = nonce·h`, verification
accepts the assembled proof (it re-derives the challenge `c`), and
`GenerateProofWithNonce` does not return the "constructed invalid proof" error: it
returns the assembled proof whenever the key passes the guard. -/
theorem honest_construction_passes_self_check [DecidableEq P] (S : Suite P A)
    (key : KeyV2) (seed nonce : Int) (h : P) (c : Int)
    (hn : 0 < S.GroupOrder) (hord : ∀ q : P, S.GroupOrder • q = 0)
    (hprime : ∀ (a : Int) (q : P), q ≠ 0 → a • q = 0 → S.GroupOrder ∣ a)
    (hH : ∀ (p : P) (sd : Int) (r : P), S.HashToCurve p sd = .ok r → p ≠ 0 ∧ r ≠ 0)
    (hseed : BitLen seed ≤ 256)
    (hh : S.HashToCurve (publicKeyOf S key) seed = .ok h)
    (hc : challengeOf S key nonce h = .ok c)
    (hdeg : checkCGammaNotEqualToSHash S c (gammaOf S key h) (responseOf S key nonce c) h
      = none) :
    0 ≤ responseOf S key nonce c ∧ responseOf S key nonce c < S.GroupOrder ∧
      Mul (IntToScalar S (responseOf S key nonce c)) S.Generator +
          Mul (IntToScalar S c) (publicKeyOf S key) =
        Mul (IntToScalar S nonce) S.Generator ∧
      Mul (IntToScalar S (responseOf S key nonce c)) h +
          Mul (IntToScalar S c) (gammaOf S key h) =
        Mul (IntToScalar S nonce) h ∧
      VerifyVRFProof S (assembled S key seed nonce h c) = (true, none) ∧
      GenerateProofWithNonce (specEnv S) key seed nonce ≠ .error .constructedInvalidProof ∧
      (S.RepresentsScalar (secretKeyOf S key) = true →
        GenerateProofWithNonce (specEnv S) key seed nonce =
          .ok (assembled S key seed nonce h c)) := by
  have hgamma : gammaOf S key h ≠ 0 :=
    gamma_ne_zero S key h hord hprime (hH _ _ _ hh).1 (hH _ _ _ hh).2
  have hv : VerifyVRFProof S (assembled S key seed nonce h c) = (true, none) := by
    rw [VerifyVRFProof_assembled S key seed nonce h c hord hh hc]
    simp [hgamma]
  have hok : S.RepresentsScalar (secretKeyOf S key) = true →
      GenerateProofWithNonce (specEnv S) key seed nonce =
        .ok (assembled S key seed nonce h c) := fun hk =>
    GenerateProofWithNonce_eq_ok (specEnv S) hk hseed hh hc hdeg hv
  refine ⟨Int.emod_nonneg _ hn.ne.symm, Int.emod_lt_of_pos _ hn,
    response_recovers_commitment S key nonce c S.Generator (hord _),
    response_recovers_commitment S key nonce c h (hord _), hv, ?_, hok⟩
  by_cases hk : S.RepresentsScalar (secretKeyOf S key) = true
  · rw [hok hk]
    exact fun hx => Except.noConfusion hx
  · rw [GenerateProofWithNonce_guard (specEnv S) key seed nonce (fun hx => hk hx.1)]
    exact fun hx => by cases hx

/-- C10 at the toy key with scalar 7, seed 3 and nonce 5 over the group of order 11,
whose `HashToCurve` stub rejects the identity. -/
theorem honest_construction_passes_self_check_witness :
    VerifyVRFProof toy11 (assembled toy11 toyKey 3 5 (Cyc.ofNat 11 2) 5) = (true, none) ∧
      GenerateProofWithNonce (specEnv toy11) toyKey 3 5 =
        .ok (assembled toy11 toyKey 3 5 (Cyc.ofNat 11 2) 5) :=
  have w := honest_construction_passes_self_check toy11 toyKey 3 5 (Cyc.ofNat 11 2) 5
    (by decide) (fun q => Cyc.order_zsmul q)
    (fun a q hq h => Cyc.dvd_of_zsmul_eq_zero (by norm_num) a q hq h)
    (fun p sd r hr => by
      by_cases hp : p = 0
      · simp [toy11, toySuite, hp] at hr
      · simp only [toy11, toySuite, hp, if_false, Except.ok.injEq] at hr
        exact ⟨hp, by rw [← hr]; decide⟩)
    (by decide) (by decide) (by decide) (by decide)
  ⟨w.2.2.2.2.1, w.2.2.2.2.2.2 (by decide)⟩

/-- C4, as the code enforces it: the range the guard enforces on the seed is
`|seed| < 2^256`.  For every key and nonce, a seed of magnitude at least `2^256` makes
`GenerateProofWithNonce` return the "badly-formatted key or seed" error, and
`GenerateProof` then fails in its first iteration and returns no proof. -/
theorem seed_of_257_bits_is_rejected (E : Env P A) (key : KeyV2) (seed : Int)
    (h : 2 ^ 256 ≤ seed.natAbs) :
    (∀ nonce, GenerateProofWithNonce E key seed nonce = .error .badlyFormattedKeyOrSeed) ∧
    (∀ d rest, ∃ err, GenerateProof E key seed (d :: rest) = some (.error err)) ∧
    (∀ draws proof, GenerateProof E key seed draws ≠ some (.ok proof)) := by
  have hb : ¬ BitLen seed ≤ 256 := fun hc => by
    have := (BitLen_le_iff seed 256).mp hc
    omega
  have hg : ∀ nonce,
      GenerateProofWithNonce E key seed nonce = .error .badlyFormattedKeyOrSeed :=
    fun nonce => GenerateProofWithNonce_guard E key seed nonce (fun hc => hb hc.2)
  refine ⟨hg, ?_, ?_⟩
  · intro d rest
    cases d with
    | error err => exact ⟨err, rfl⟩
    | ok nonce =>
      refine ⟨.badlyFormattedKeyOrSeed, ?_⟩
      rw [GenerateProof, hg nonce]
  · intro draws proof hp
    obtain ⟨nonce, hn⟩ := GenerateProof_ok hp
    rw [hg nonce] at hn
    cases hn

/-- C4's amended form at the seed `2^256` for the key with scalar 7 over the group of
the order of secp256k1. -/
theorem seed_of_257_bits_is_rejected_witness :
    GenerateProofWithNonce (specEnv toySecp) toyKey (2 ^ 256) 5 =
      .error .badlyFormattedKeyOrSeed :=
  (seed_of_257_bits_is_rejected (specEnv toySecp) toyKey (2 ^ 256) (by norm_num)).1 5

set_option maxRecDepth 100000 in
/-- C4 as stated fails: over the group of the order of secp256k1, the seed equal to the
group order (not strictly less than it, 256 bits long) passes the guard, and
`GenerateProofWithNonce` and `GenerateProof` return a proof for it. -/
theorem seed_equal_to_group_order_is_accepted :
    ¬ ((secp256k1GroupOrder : Int) < toySecp.GroupOrder) ∧
      GenerateProofWithNonce (specEnv toySecp) toyKey secp256k1GroupOrder 5 =
        .ok (assembled toySecp toyKey secp256k1GroupOrder 5
          (Cyc.ofNat secp256k1GroupOrder 2) 5) ∧
      GenerateProof (specEnv toySecp) toyKey secp256k1GroupOrder [.ok 5] =
        some (.ok (assembled toySecp toyKey secp256k1GroupOrder 5
          (Cyc.ofNat secp256k1GroupOrder 2) 5)) := by
  decide

/-- C2, as far as it holds: for every byte string `b` whose scalar has a public point
that marshals to `CompressedPublicKeyLength` bytes (the group order being positive),
`Raw(b).Key()` succeeds with a key `k`; `k.Raw()` read back as an integer is the value of
`b` modulo the group order, and `k.Raw()` equals `b` byte for byte exactly when `b` has
no leading zero byte and its value is below the group order. -/
theorem raw_round_trip (S : Suite P A) (b : Raw) (enc : List Byte)
    (hn : 0 < S.GroupOrder)
    (hm : S.MarshalBinary (Mul (IntToScalar S (SetBytes b)) S.Generator) = .ok enc)
    (hl : enc.length = S.CompressedPublicKeyLength) :
    ∃ key, Raw.Key S b = .ok key ∧
      SetBytes (KeyV2.Raw key) = SetBytes b % S.GroupOrder ∧
      (KeyV2.Raw key = b ↔ (b.head? ≠ some 0 ∧ SetBytes b < S.GroupOrder)) := by
  refine ⟨{ k := IntToScalar S (SetBytes b), PublicKey := enc }, ?_, ?_, ?_⟩
  · rw [Raw.Key_eq, keyFromScalar_eq]
    simp only [ScalarToPublicPoint, hm, hl, if_true]
  · have h0 : 0 ≤ SetBytes b % S.GroupOrder := Int.emod_nonneg _ hn.ne'
    simp only [KeyV2.Raw, ToInt, IntToScalar]
    rw [SetBytes_Bytes, Int.natAbs_of_nonneg h0]
  · have h0 : 0 ≤ SetBytes b % S.GroupOrder := Int.emod_nonneg _ hn.ne'
    have hb0 : 0 ≤ SetBytes b := by rw [SetBytes_eq]; exact Int.natCast_nonneg _
    simp only [KeyV2.Raw, ToInt, IntToScalar]
    constructor
    · intro h
      refine ⟨h ▸ Bytes_head _, ?_⟩
      have h1 := SetBytes_Bytes (SetBytes b % S.GroupOrder)
      rw [h, Int.natAbs_of_nonneg h0] at h1
      rw [h1]
      exact Int.emod_lt_of_pos _ hn
    · rintro ⟨hhead, hlt⟩
      rw [Int.emod_eq_of_lt hb0 hlt]
      exact Bytes_SetBytes b hhead

/-- C2's amended form at a 32-byte raw key without leading zero, below the order of
secp256k1: import and export give it back. -/
theorem raw_round_trip_witness :
    raw32.length = 32 ∧ ∃ key, Raw.Key toySecp raw32 = .ok key ∧ KeyV2.Raw key = raw32 :=
  ⟨by decide,
    let ⟨key, hk, _, hiff⟩ :=
      raw_round_trip toySecp raw32 [0, 7] (by decide) (by decide) (by decide)
    ⟨key, hk, hiff.mpr ⟨by decide, by decide⟩⟩⟩

/-- C2 as stated fails: over the group of the order of secp256k1, the 32-byte raw key
`00…0007` is imported as the key with scalar 7, whose export is the single byte 7; and
the 32-byte raw key `ff…ff` is imported as a key whose export is 17 bytes long. -/
theorem raw_export_is_not_inverse_of_import :
    raw32LeadingZero.length = 32 ∧ Raw.Key toySecp raw32LeadingZero = .ok toyKey ∧
      KeyV2.Raw toyKey = [7] ∧ KeyV2.Raw toyKey ≠ raw32LeadingZero ∧
      raw32Max.length = 32 ∧
      Raw.Key toySecp raw32Max = .ok toyMaxKey ∧ (KeyV2.Raw toyMaxKey).length = 17 ∧
      KeyV2.Raw toyMaxKey ≠ raw32Max := by
  decide

end VRF
